import Mathlib

/-!
Shallow embedding of the market-data retrieval core of `MeuBotFinanceiro`
(`src/core/api_manager.py`, with the credential persistence of
`src/core/database.py`), together with theorems settling the frozen claims
about the multi-provider fallback / rate-limit layer.

Network responses are modelled as explicit payload values handed to each
adapter; a raised Python exception is modelled as `Except.error ()`, and an
adapter's `return None` as `Except.ok none`.  Python's mutable `self` state
is threaded explicitly through every operation.
-/

namespace MBF

/-- The provider names that appear as keys of `self.limits` / `self.last_calls`
in `APIManager`. -/
inductive ApiName
  | finnhub
  | twelve_data
  | alpha_vantage
  | newsapi
  | yfinance
deriving DecidableEq, Repr

/-- The string key each provider uses in the `api_keys` credential dict. -/
def ApiName.key : ApiName → String
  | .finnhub => "finnhub"
  | .twelve_data => "twelve_data"
  | .alpha_vantage => "alpha_vantage"
  | .newsapi => "newsapi"
  | .yfinance => "yfinance"

/-- `self.limits`: calls-per-minute budget of each provider
(api_manager.py lines 23-29). -/
def limits : ApiName → Nat
  | .finnhub => 60
  | .twelve_data => 8
  | .alpha_vantage => 5
  | .newsapi => 100
  | .yfinance => 2000

/-- Insertion order of the `self.limits` dict, which `get_api_status`
iterates over. -/
def limitsOrder : List ApiName :=
  [.finnhub, .twelve_data, .alpha_vantage, .newsapi, .yfinance]

/-- One OHLCV record in the canonical output shape built by every adapter
(keys `timestamp`, `open`, `high`, `low`, `close`, `volume`).  Prices are
carried opaquely; they never influence control flow, so they are embedded
as integers. -/
structure Bar where
  timestamp : Int
  open_p : Int
  high : Int
  low : Int
  close : Int
  volume : Int
deriving DecidableEq, Repr

/-- The dict `{'symbol': .., 'interval': .., 'data': [..]}` returned by the
quote adapters. -/
structure MarketData where
  symbol : String
  interval : String
  data : List Bar
deriving DecidableEq, Repr

/-- A Python `Dict[str, str]` embedded as an insertion-ordered association
list with distinct keys (Python dicts cannot repeat a key). -/
abbrev Dict := List (String × String)

/-- `d[k]` / `k in d` for the embedded dict: first (i.e. unique) binding. -/
def lookupD (d : Dict) (k : String) : Option String :=
  (d.find? (fun p => p.1 == k)).map (fun p => p.2)

/-- `d[k] = v` for the embedded dict: replace the existing binding in place,
or append a new one — exactly Python's dict assignment. -/
def setKey (d : Dict) (k v : String) : Dict :=
  if d.any (fun p => p.1 == k) then
    d.map (fun p => if p.1 == k then (k, v) else p)
  else
    d ++ [(k, v)]

/-- Python's `d.update(n)`: assign every binding of `n` into `d` in order. -/
def dictUpdate (d n : Dict) : Dict :=
  n.foldl (fun acc p => setKey acc p.1 p.2) d

/-- The mutable state of `APIManager`: credential dict `self.api_keys` and
rate-limit ledger `self.last_calls`.

The ledger is embedded as a total function defaulting to `[]`: every reader
of `self.last_calls` in the source (`_check_rate_limit`, `_record_api_call`,
`get_api_status`) first inserts `[]` for a missing key or treats a missing
key exactly like `[]`, so the dict-with-lazy-insert and the total function
are observationally identical. -/
structure ApiState where
  api_keys : Dict
  last_calls : ApiName → List Int

/-- Point update of the ledger function. -/
def updCalls (f : ApiName → List Int) (api : ApiName) (l : List Int) :
    ApiName → List Int :=
  fun a => if a = api then l else f a

/-- The pruning comprehension of `_check_rate_limit` (lines 39-42): keep the
timestamps with `now - call_time < 60`. -/
def prune (now : Int) (l : List Int) : List Int :=
  l.filter (fun t => now - t < 60)

/-- `APIManager._check_rate_limit` (lines 31-48).  Prunes the provider's
timestamp list in place and answers whether one more call is allowed
(`len(pruned) >= limit → False`, else `True`). -/
def check_rate_limit (now : Int) (st : ApiState) (api : ApiName) :
    Bool × ApiState :=
  let pruned := prune now (st.last_calls api)
  (decide (pruned.length < limits api),
   { st with last_calls := updCalls st.last_calls api pruned })

/-- `APIManager._record_api_call` (lines 50-55): append the current timestamp
to the provider's list. -/
def record_api_call (now : Int) (st : ApiState) (api : ApiName) : ApiState :=
  { st with last_calls := updCalls st.last_calls api (st.last_calls api ++ [now]) }

/-! ### Provider adapters for OHLCV data -/

/-- The `yf_intervals` dict of `_get_yfinance_data` (lines 113-117), as the
partial lookup `interval ↦ yfinance resolution`. -/
def yf_intervals : String → Option String
  | "1m" => some "1m"
  | "30m" => some "30m"
  | "1D" => some "1d"
  | _ => none

/-- The `finnhub_intervals` dict of `_get_finnhub_data` (lines 170-174). -/
def finnhub_intervals : String → Option String
  | "1m" => some "1"
  | "30m" => some "30"
  | "1D" => some "D"
  | _ => none

/-- The `td_intervals` dict of `_get_twelve_data` (lines 236-240). -/
def td_intervals : String → Option String
  | "1m" => some "1min"
  | "30m" => some "30min"
  | "1D" => some "1day"
  | _ => none

/-- The `av_intervals` dict of `_get_alpha_vantage_data` (lines 301-304),
used only on the non-`1D` branch. -/
def av_intervals : String → Option String
  | "1m" => some "1min"
  | "30m" => some "30min"
  | _ => none

/-- One row of the `yfinance` history DataFrame, already carrying the values
the conversion loop (lines 147-155) reads: the index timestamp, the four
price columns, and the `Volume` column when present. -/
structure YfRow where
  timestamp : Int
  open_p : Int
  high : Int
  low : Int
  close : Int
  volume : Option Int
deriving DecidableEq, Repr

/-- `APIManager._get_yfinance_data` (lines 107-161).
`payload` is the outcome of `ticker.history(...)` (`.error` = the import or
the request raised): it carries the DataFrame rows in index order.

Faithful subtlety: for an interval outside `yf_intervals` the source first
substitutes `interval = '1d'` (line 120), but `'1d'` is a *value* and not a
*key* of `yf_intervals`, so the later `yf_intervals[interval]` (line 132)
raises `KeyError` before any data is fetched; the broad `except` re-raises
it (line 161).  The substitution therefore never serves daily data — the
adapter raises. -/
def get_yfinance_data (symbol interval : String)
    (payload : Except Unit (List YfRow)) (now : Int) (st : ApiState) :
    Except Unit (Option MarketData × ApiState) :=
  let interval := if (yf_intervals interval).isSome then interval else "1d"
  match yf_intervals interval with
  | none => .error ()
  | some _ =>
    match payload with
    | .error _ => .error ()
    | .ok rows =>
      if rows.isEmpty then .ok (none, st)
      else
        let rows100 := rows.drop (rows.length - 100)
        let bars := rows100.map (fun r =>
          { timestamp := r.timestamp, open_p := r.open_p, high := r.high,
            low := r.low, close := r.close, volume := r.volume.getD 0 })
        .ok (some { symbol := symbol, interval := interval, data := bars },
             record_api_call now st .yfinance)

/-- The JSON body a Finnhub `stock/candle` request parses to: status flag `s`
and the column-oriented arrays `t`, `o`, `h`, `l`, `c`, `v`. -/
structure FinnhubJson where
  s : String
  t : List Int
  o : List Int
  h : List Int
  l : List Int
  c : List Int
  v : List Int
deriving DecidableEq, Repr

/-- The conversion loop of `_get_finnhub_data` (lines 213-221): one bar per
index of `t`, indexing the five other arrays at the same position.  `none`
models the `IndexError` raised when an array is shorter than `t` (the broad
`except` then re-raises). -/
def finnhubRows : List Int → List Int → List Int → List Int → List Int →
    List Int → Option (List Bar)
  | [], _, _, _, _, _ => some []
  | t :: ts, o :: os, h :: hs, l :: ls, c :: cs, v :: vs =>
    (finnhubRows ts os hs ls cs vs).map (fun rest =>
      { timestamp := t, open_p := o, high := h, low := l, close := c,
        volume := v } :: rest)
  | _ :: _, _, _, _, _, _ => none

/-- `APIManager._get_finnhub_data` (lines 163-227).  `payload` is the outcome
of the HTTP request plus `raise_for_status` plus JSON parse (`.error` = any
of them raised).  Note `_record_api_call` (line 223) runs after the loop
even when `t` is empty, and the returned dict is *not* checked for an empty
bar list here. -/
def get_finnhub_data (symbol interval : String)
    (payload : Except Unit FinnhubJson) (now : Int) (st : ApiState) :
    Except Unit (Option MarketData × ApiState) :=
  if (lookupD st.api_keys "finnhub").isNone then .ok (none, st)
  else
    match finnhub_intervals interval with
    | none => .ok (none, st)
    | some _ =>
      match payload with
      | .error _ => .error ()
      | .ok j =>
        if j.s ≠ "ok" then .ok (none, st)
        else
          match finnhubRows j.t j.o j.h j.l j.c j.v with
          | none => .error ()
          | some bars =>
            .ok (some { symbol := symbol, interval := interval, data := bars },
                 record_api_call now st .finnhub)

/-- `APIManager._get_twelve_data` (lines 229-287).  The payload is the parsed
JSON: `.ok none` models a body without a `'values'` key; `.ok (some values)`
carries the `values` array with each item pre-classified by the per-item
`try`/`except` of lines 270-281 (`none` = malformed item, skipped).  The
source iterates `reversed(values)` because Twelve Data answers
newest-first, records the call (line 283), and only then rejects an empty
bar list (line 284). -/
def get_twelve_data (symbol interval : String)
    (payload : Except Unit (Option (List (Option Bar)))) (now : Int)
    (st : ApiState) : Except Unit (Option MarketData × ApiState) :=
  if (lookupD st.api_keys "twelve_data").isNone then .ok (none, st)
  else
    match td_intervals interval with
    | none => .ok (none, st)
    | some _ =>
      match payload with
      | .error _ => .error ()
      | .ok none => .ok (none, st)
      | .ok (some values) =>
        let bars := values.reverse.filterMap id
        let st' := record_api_call now st .twelve_data
        .ok ((if bars.isEmpty then none
              else some { symbol := symbol, interval := interval, data := bars }),
             st')

/-- Chunk of `_get_alpha_vantage_data`: list of lexicographically-sorted date
keys (via a stable insertion sort, the image of Python's stable `sorted`). -/
def insertBy {α : Type} (le : α → α → Bool) (a : α) : List α → List α
  | [] => [a]
  | b :: rest => if le a b then a :: b :: rest else b :: insertBy le a rest

/-- Stable sort; Python's `sorted`/`list.sort` is stable, and every stable
sort computes the same output list, so this insertion sort is its exact
image. -/
def sortBy {α : Type} (le : α → α → Bool) : List α → List α
  | [] => []
  | a :: rest => insertBy le a (sortBy le rest)

/-- Lexicographic code-point comparison on strings: precisely Python's
`<=` on `str`, used by `sorted` over date keys. -/
def lexLe : List Char → List Char → Bool
  | [], _ => true
  | _ :: _, [] => false
  | a :: as, b :: bs =>
    if a < b then true else if b < a then false else lexLe as bs

/-- String comparison entry point. -/
def strLe (a b : String) : Bool := lexLe a.data b.data

/-- `APIManager._get_alpha_vantage_data` (lines 289-365).  The payload is the
parsed JSON after the `'Time Series'` key search of lines 325-332:
`.ok none` = no such key; `.ok (some series)` = the time-series map as an
association list `(date string, parse outcome)`, each item pre-classified by
the per-item `try`/`except` of lines 348-359 (`none` = malformed, skipped).
Lines 343-361: sort the date keys, keep the last 100, convert, record the
call, and only then reject an empty bar list. -/
def get_alpha_vantage_data (symbol interval : String)
    (payload : Except Unit (Option (List (String × Option Bar)))) (now : Int)
    (st : ApiState) : Except Unit (Option MarketData × ApiState) :=
  if (lookupD st.api_keys "alpha_vantage").isNone then .ok (none, st)
  else
    if interval ≠ "1D" ∧ av_intervals interval = none then .ok (none, st)
    else
      match payload with
      | .error _ => .error ()
      | .ok none => .ok (none, st)
      | .ok (some series) =>
        let sorted_dates :=
          (sortBy strLe (series.map (fun p => p.1)))
        let sorted_dates := sorted_dates.drop (sorted_dates.length - 100)
        let bars := sorted_dates.filterMap (fun d =>
          (series.find? (fun p => p.1 == d)).bind (fun p => p.2))
        let st' := record_api_call now st .alpha_vantage
        .ok ((if bars.isEmpty then none
              else some { symbol := symbol, interval := interval, data := bars }),
             st')

/-! ### The orchestrator `get_market_data` -/

/-- One fetch invocation's external world: the wall-clock instant and what
each provider's network round-trip would deliver. -/
structure FetchEnv where
  now : Int
  finnhub : Except Unit FinnhubJson
  twelve_data : Except Unit (Option (List (Option Bar)))
  alpha_vantage : Except Unit (Option (List (String × Option Bar)))
  yfinance : Except Unit (List YfRow)

/-- `apis_to_try` (line 69): the fixed preference order of
`get_market_data`. -/
def apis_to_try : List ApiName :=
  [.finnhub, .twelve_data, .alpha_vantage, .yfinance]

/-- The `if`/`elif` dispatch of lines 84-91, selecting the adapter by name.
(`newsapi` is never in `apis_to_try`; the branch is unreachable there.) -/
def run_adapter (symbol interval : String) (env : FetchEnv) (st : ApiState) :
    ApiName → Except Unit (Option MarketData × ApiState)
  | .finnhub => get_finnhub_data symbol interval env.finnhub env.now st
  | .twelve_data => get_twelve_data symbol interval env.twelve_data env.now st
  | .alpha_vantage =>
    get_alpha_vantage_data symbol interval env.alpha_vantage env.now st
  | .yfinance => get_yfinance_data symbol interval env.yfinance env.now st
  | .newsapi => .ok (none, st)

/-- The provider loop of `get_market_data` (lines 71-102): skip a keyless
provider (except `yfinance`), skip on rate limit, attempt the adapter,
treat an exception or an empty/absent bar list as failure and continue,
return the first non-empty result immediately. -/
def gmdLoop (symbol interval : String) (env : FetchEnv) :
    List ApiName → ApiState → Option MarketData × ApiState
  | [], st => (none, st)
  | api :: rest, st =>
    if api ≠ .yfinance ∧ (lookupD st.api_keys api.key).isNone then
      gmdLoop symbol interval env rest st
    else
      let chk := check_rate_limit env.now st api
      if chk.1 then
        match run_adapter symbol interval env chk.2 api with
        | .error _ => gmdLoop symbol interval env rest chk.2
        | .ok (some d, st') =>
          if d.data.isEmpty then gmdLoop symbol interval env rest st'
          else (some d, st')
        | .ok (none, st') => gmdLoop symbol interval env rest st'
      else gmdLoop symbol interval env rest chk.2

/-- `APIManager.get_market_data` (lines 57-105): run the loop over the fixed
order; `(none, _)` is the explicit all-providers-failed signal of
line 105. -/
def get_market_data (symbol interval : String) (env : FetchEnv)
    (st : ApiState) : Option MarketData × ApiState :=
  gmdLoop symbol interval env apis_to_try st

/-- Reference (spec-side) classification of a single provider's attempt,
computed from the *initial* state: `none` when the provider is skipped
(missing credential / rate limit), raises, or yields an empty or absent bar
list; `some d` exactly when it would succeed with `d`. -/
def provider_attempt (symbol interval : String) (env : FetchEnv)
    (st : ApiState) (api : ApiName) : Option MarketData :=
  if api ≠ .yfinance ∧ (lookupD st.api_keys api.key).isNone then none
  else
    let chk := check_rate_limit env.now st api
    if chk.1 then
      match run_adapter symbol interval env chk.2 api with
      | .error _ => none
      | .ok (some d, _) => if d.data.isEmpty then none else some d
      | .ok (none, _) => none
    else none

/-- First non-`none` entry of a list of per-provider outcomes. -/
def firstSome : List (Option MarketData) → Option MarketData
  | [] => none
  | some d :: _ => some d
  | none :: rest => firstSome rest

/-- Whether a provider's network round-trip raises in this environment
(the "transport error" scenario). -/
def payload_errored (env : FetchEnv) : ApiName → Bool
  | .finnhub => match env.finnhub with | .error _ => true | .ok _ => false
  | .twelve_data =>
    match env.twelve_data with | .error _ => true | .ok _ => false
  | .alpha_vantage =>
    match env.alpha_vantage with | .error _ => true | .ok _ => false
  | .yfinance => match env.yfinance with | .error _ => true | .ok _ => false
  | .newsapi => false

/-! ### `get_api_status` -/

/-- One entry of the dict returned by `get_api_status` (lines 568-573). -/
structure ProviderStatus where
  has_key : Bool
  remaining_calls : Nat
  limit : Nat
  status : String
deriving DecidableEq, Repr

/-- `APIManager.get_api_status` (lines 554-575).  For every provider of
`self.limits` (insertion order): count the ledger entries inside the
trailing window, report `max(0, limit - recent)` remaining calls
(truncated `Nat` subtraction embeds Python's `max(0, ...)` exactly), the
configured limit, and the credential flag.  The method reads the ledger
through comprehensions only — the returned state is the input state. -/
def get_api_status (now : Int) (st : ApiState) :
    List (ApiName × ProviderStatus) × ApiState :=
  (limitsOrder.map (fun api =>
    let recent := (prune now (st.last_calls api)).length
    let remaining := limits api - recent
    (api,
     { has_key := (lookupD st.api_keys api.key).isSome
       remaining_calls := remaining
       limit := limits api
       status :=
         if (lookupD st.api_keys api.key).isSome ∧ 0 < remaining
         then "active" else "inactive" })),
   st)

/-! ### Credential updates and persistence -/

/-- The `api_keys` table of `DatabaseManager`, as the provider ↦ key map it
represents. -/
structure DbState where
  stored_keys : Dict
deriving DecidableEq, Repr

/-- `DatabaseManager.save_api_keys` (database.py lines 147-157): one
`INSERT OR REPLACE` per entry of the argument, i.e. a dict update of the
stored map. -/
def save_api_keys (db : DbState) (keys : Dict) : DbState :=
  { stored_keys := dictUpdate db.stored_keys keys }

/-- The blank test of `update_api_keys` line 580: Python keeps `(k, v)` iff
`v and v.strip()` is truthy, i.e. iff `v` contains at least one
non-whitespace character (so the empty and whitespace-only strings are
dropped). -/
def keptKey (v : String) : Bool := v.data.any (fun c => !c.isWhitespace)

/-- `APIManager.update_api_keys` (lines 577-590): drop blank values, merge
the rest into the in-memory `self.api_keys`, and persist the same cleaned
mapping. -/
def update_api_keys (keys : Dict) (st : ApiState) (db : DbState) :
    ApiState × DbState :=
  let clean_keys := keys.filter (fun p => keptKey p.2)
  ({ st with api_keys := dictUpdate st.api_keys clean_keys },
   save_api_keys db clean_keys)

/-! ### News lookup -/

/-- The normalized article dict built by both news adapters
(lines 497-504 and 538-545). -/
structure Article where
  title : String
  description : String
  url : String
  published_at : String
  source : String
  sentiment : String
deriving DecidableEq, Repr

/-- The external world of one `get_news` invocation.
`newsapi_articles n` is the (already-normalized) article list NewsAPI
answers to a request with `pageSize = n`, `none` when the request raises;
`finnhub_news` is the company-news array, `none` when the request or the
per-call conversion raises (both adapters catch locally and return `[]`). -/
structure NewsEnv where
  now : Int
  newsapi_articles : Nat → Option (List Article)
  finnhub_news : Option (List Article)

/-- `APIManager._get_newsapi_news` (lines 463-511): on success return every
article of the response and record the call; on any exception log and
return `[]` without recording. -/
def get_newsapi_news (limit : Nat) (env : NewsEnv) (st : ApiState) :
    List Article × ApiState :=
  match env.newsapi_articles limit with
  | none => ([], st)
  | some articles => (articles, record_api_call env.now st .newsapi)

/-- `APIManager._get_finnhub_news` (lines 513-552): on success convert the
first `limit` items (`data[:limit]`) and record the call; on any exception
log and return `[]` without recording. -/
def get_finnhub_news (limit : Nat) (env : NewsEnv) (st : ApiState) :
    List Article × ApiState :=
  match env.finnhub_news with
  | none => ([], st)
  | some data => (data.take limit, record_api_call env.now st .finnhub)

/-- The de-duplication loop of `get_news` (lines 450-456): keep an article
iff its URL was not seen before, first occurrence wins. -/
def dedup_by_url : List Article → List String → List Article
  | [], _ => []
  | a :: rest, seen =>
    if a.url ∈ seen then dedup_by_url rest seen
    else a :: dedup_by_url rest (a.url :: seen)

/-- Descending comparison on the `published_at` strings: the image of
`sort(key=lambda x: x.get('published_at', ''), reverse=True)` (line 459;
every built article carries the key, so `get` never defaults). -/
def newsDescLe (a b : Article) : Bool := strLe b.published_at a.published_at

/-- `APIManager.get_news` (lines 435-461): accumulate both providers'
articles (each asked for `limit // 2`, guarded by credential presence and
the rate limiter), de-duplicate by URL, stable-sort newest-first, truncate
to `limit`. -/
def get_news (limit : Nat) (env : NewsEnv) (st : ApiState) :
    List Article × ApiState :=
  let step1 : List Article × ApiState :=
    if (lookupD st.api_keys "newsapi").isSome then
      let chk := check_rate_limit env.now st .newsapi
      if chk.1 then get_newsapi_news (limit / 2) env chk.2
      else ([], chk.2)
    else ([], st)
  let step2 : List Article × ApiState :=
    if (lookupD step1.2.api_keys "finnhub").isSome then
      let chk := check_rate_limit env.now step1.2 .finnhub
      if chk.1 then get_finnhub_news (limit / 2) env chk.2
      else ([], chk.2)
    else ([], step1.2)
  let all_news := step1.1 ++ step2.1
  let unique_news := dedup_by_url all_news []
  let sorted_news := sortBy newsDescLe unique_news
  (sorted_news.take limit, step2.2)

/-- Reference (spec-side) pool of articles one `get_news` call accumulates,
with both availability guards evaluated against the initial state (the
guards touch disjoint ledger entries, so this matches the threaded run). -/
def news_pool (limit : Nat) (env : NewsEnv) (st : ApiState) : List Article :=
  (if (lookupD st.api_keys "newsapi").isSome ∧
      (check_rate_limit env.now st .newsapi).1 then
    (env.newsapi_articles (limit / 2)).getD []
   else [])
  ++ (if (lookupD st.api_keys "finnhub").isSome ∧
         (check_rate_limit env.now st .finnhub).1 then
    ((env.finnhub_news).getD []).take (limit / 2)
   else [])

/-! ## Helper lemmas -/

theorem length_insertBy {α : Type} (le : α → α → Bool) (a : α) (l : List α) :
    (insertBy le a l).length = l.length + 1 := by
  induction l with
  | nil => rfl
  | cons b rest ih =>
    simp only [insertBy]
    split <;> simp [ih]

theorem length_sortBy {α : Type} (le : α → α → Bool) (l : List α) :
    (sortBy le l).length = l.length := by
  induction l with
  | nil => rfl
  | cons a rest ih => simp [sortBy, length_insertBy, ih]

theorem perm_insertBy {α : Type} (le : α → α → Bool) (a : α) (l : List α) :
    (insertBy le a l).Perm (a :: l) := by
  induction l with
  | nil => rfl
  | cons b rest ih =>
    simp only [insertBy]
    split
    · rfl
    · exact (ih.cons b).trans (List.Perm.swap a b rest)

theorem perm_sortBy {α : Type} (le : α → α → Bool) (l : List α) :
    (sortBy le l).Perm l := by
  induction l with
  | nil => rfl
  | cons a rest ih => exact (perm_insertBy le a (sortBy le rest)).trans (ih.cons a)

theorem mem_sortBy {α : Type} {le : α → α → Bool} {a : α} {l : List α} :
    a ∈ sortBy le l ↔ a ∈ l :=
  (perm_sortBy le l).mem_iff

theorem mem_insertBy {α : Type} {le : α → α → Bool} {x a : α} {l : List α} :
    x ∈ insertBy le a l ↔ x = a ∨ x ∈ l := by
  rw [(perm_insertBy le a l).mem_iff, List.mem_cons]

theorem pairwise_insertBy {α : Type} {le : α → α → Bool}
    (htrans : ∀ a b c, le a b = true → le b c = true → le a c = true)
    (total : ∀ a b, le a b = true ∨ le b a = true) (a : α) {l : List α}
    (h : l.Pairwise (fun x y => le x y = true)) :
    (insertBy le a l).Pairwise (fun x y => le x y = true) := by
  induction l with
  | nil => simp [insertBy]
  | cons b rest ih =>
    rw [List.pairwise_cons] at h
    simp only [insertBy]
    split
    · rename_i hab
      refine List.Pairwise.cons ?_ (List.Pairwise.cons h.1 h.2)
      intro x hx
      rcases List.mem_cons.mp hx with rfl | hx
      · exact hab
      · exact htrans a b x hab (h.1 x hx)
    · rename_i hab
      refine List.Pairwise.cons ?_ (ih h.2)
      intro x hx
      rcases mem_insertBy.mp hx with rfl | hx
      · rcases total x b with h' | h'
        · exact absurd h' hab
        · exact h'
      · exact h.1 x hx

theorem pairwise_sortBy {α : Type} {le : α → α → Bool}
    (htrans : ∀ a b c, le a b = true → le b c = true → le a c = true)
    (total : ∀ a b, le a b = true ∨ le b a = true) (l : List α) :
    (sortBy le l).Pairwise (fun x y => le x y = true) := by
  induction l with
  | nil => simp [sortBy]
  | cons a rest ih => exact pairwise_insertBy htrans total a ih

theorem lexLe_total : ∀ as bs : List Char,
    lexLe as bs = true ∨ lexLe bs as = true := by
  intro as
  induction as with
  | nil => intro bs; left; rfl
  | cons a as ih =>
    intro bs
    cases bs with
    | nil => right; rfl
    | cons b bs =>
      simp only [lexLe]
      rcases lt_trichotomy a b with h | h | h
      · left; simp [h]
      · subst h
        simp only [lt_irrefl, if_false]
        exact ih bs
      · right; simp [h]

theorem lexLe_trans : ∀ as bs cs : List Char,
    lexLe as bs = true → lexLe bs cs = true → lexLe as cs = true := by
  intro as
  induction as with
  | nil => intro bs cs _ _; rfl
  | cons a as ih =>
    intro bs cs h1 h2
    cases bs with
    | nil => simp [lexLe] at h1
    | cons b bs =>
      cases cs with
      | nil => simp [lexLe] at h2
      | cons c cs =>
        simp only [lexLe] at h1 h2 ⊢
        by_cases hab : a < b
        · simp only [hab, if_true] at h1
          by_cases hbc : b < c
          · simp [hab.trans hbc]
          · simp only [hbc, if_false] at h2
            by_cases hcb : c < b
            · simp [hcb] at h2
            · have : b = c := le_antisymm (not_lt.mp hcb) (not_lt.mp hbc)
              subst this
              simp [hab]
        · simp only [hab, if_false] at h1
          by_cases hba : b < a
          · simp [hba] at h1
          · have hab' : a = b := le_antisymm (not_lt.mp hba) (not_lt.mp hab)
            subst hab'
            simp only [lt_irrefl, if_false] at h1
            by_cases hac : a < c
            · simp [hac]
            · simp only [hac, if_false] at h2 ⊢
              by_cases hca : c < a
              · simp [hca] at h2
              · simp only [hca, if_false] at h2 ⊢
                exact ih bs cs h1 h2

theorem strLe_total (a b : String) : strLe a b = true ∨ strLe b a = true :=
  lexLe_total a.data b.data

theorem strLe_trans {a b c : String} (h1 : strLe a b = true)
    (h2 : strLe b c = true) : strLe a c = true :=
  lexLe_trans a.data b.data c.data h1 h2

theorem newsDescLe_total (a b : Article) :
    newsDescLe a b = true ∨ newsDescLe b a = true :=
  (strLe_total b.published_at a.published_at).imp id id

theorem newsDescLe_trans (a b c : Article) (h1 : newsDescLe a b = true)
    (h2 : newsDescLe b c = true) : newsDescLe a c = true :=
  strLe_trans h2 h1

theorem dedup_mem {a : Article} : ∀ {l : List Article} {seen : List String},
    a ∈ dedup_by_url l seen → a ∈ l := by
  intro l
  induction l with
  | nil => intro seen h; simp [dedup_by_url] at h
  | cons b rest ih =>
    intro seen h
    simp only [dedup_by_url] at h
    split at h
    · exact List.mem_cons_of_mem b (ih h)
    · rcases List.mem_cons.mp h with rfl | h
      · exact List.mem_cons_self a rest
      · exact List.mem_cons_of_mem b (ih h)

theorem dedup_url_not_seen {a : Article} :
    ∀ {l : List Article} {seen : List String},
      a ∈ dedup_by_url l seen → a.url ∉ seen := by
  intro l
  induction l with
  | nil => intro seen h; simp [dedup_by_url] at h
  | cons b rest ih =>
    intro seen h
    simp only [dedup_by_url] at h
    split at h
    · exact ih h
    · rcases List.mem_cons.mp h with rfl | h
      · assumption
      · intro hmem
        exact ih h (List.mem_cons_of_mem _ hmem)

theorem dedup_find_first {a : Article} :
    ∀ {l : List Article} {seen : List String}, a ∈ dedup_by_url l seen →
      l.find? (fun x => x.url == a.url) = some a := by
  intro l
  induction l with
  | nil => intro seen h; simp [dedup_by_url] at h
  | cons b rest ih =>
    intro seen h
    simp only [dedup_by_url] at h
    split at h
    · rename_i hseen
      have hne : (b.url == a.url) = false := by
        rw [beq_eq_false_iff_ne]
        intro he
        exact dedup_url_not_seen h (he ▸ hseen)
      simp only [List.find?_cons, hne]
      exact ih h
    · rename_i hseen
      rcases List.mem_cons.mp h with rfl | h
      · simp [List.find?_cons]
      · have hnotin := dedup_url_not_seen h
        have hne : (b.url == a.url) = false := by
          rw [beq_eq_false_iff_ne]
          intro he
          exact hnotin (he ▸ List.mem_cons_self _ _)
        simp only [List.find?_cons, hne]
        exact ih h

theorem dedup_urls_nodup :
    ∀ (l : List Article) (seen : List String),
      ((dedup_by_url l seen).map Article.url).Nodup := by
  intro l
  induction l with
  | nil => intro seen; simp [dedup_by_url]
  | cons b rest ih =>
    intro seen
    simp only [dedup_by_url]
    split
    · exact ih seen
    · simp only [List.map_cons, List.nodup_cons]
      refine ⟨?_, ih (b.url :: seen)⟩
      intro hmem
      rcases List.mem_map.mp hmem with ⟨c, hc, hcu⟩
      exact dedup_url_not_seen hc (hcu ▸ List.mem_cons_self _ _)

/-! ### Dict lemmas -/

theorem lookupD_cons_ne {p : String × String} {rest : Dict} {k : String}
    (h : p.1 ≠ k) : lookupD (p :: rest) k = lookupD rest k := by
  have hf : (p.1 == k) = false := beq_eq_false_iff_ne.mpr h
  simp only [lookupD, List.find?_cons, hf]

theorem lookupD_cons_self {k v : String} {rest : Dict} :
    lookupD ((k, v) :: rest) k = some v := by
  simp [lookupD, List.find?_cons]

theorem lookupD_eq_none_of_not_mem {d : Dict} {k : String}
    (h : k ∉ d.map Prod.fst) : lookupD d k = none := by
  induction d with
  | nil => rfl
  | cons p rest ih =>
    simp only [List.map_cons, List.mem_cons] at h
    push_neg at h
    rw [lookupD_cons_ne (fun he => h.1 he.symm)]
    exact ih h.2

theorem lookupD_map_replace_ne (d : Dict) (k v k' : String) (h : k' ≠ k) :
    lookupD (d.map (fun p => if p.1 == k then (k, v) else p)) k'
      = lookupD d k' := by
  induction d with
  | nil => rfl
  | cons p rest ih =>
    simp only [List.map_cons]
    by_cases hp : (p.1 == k) = true
    · have hp' : p.1 = k := beq_iff_eq.mp hp
      rw [if_pos hp, lookupD_cons_ne (fun he : k = k' => h he.symm),
        lookupD_cons_ne (fun he : p.1 = k' => h (hp' ▸ he).symm)]
      exact ih
    · rw [if_neg hp]
      by_cases hk' : p.1 = k'
      · subst hk'
        rcases p with ⟨k0, v0⟩
        simp [lookupD_cons_self]
      · rw [lookupD_cons_ne hk', lookupD_cons_ne hk']
        exact ih

theorem lookupD_map_replace_self (d : Dict) (k v : String)
    (h : d.any (fun p => p.1 == k) = true) :
    lookupD (d.map (fun p => if p.1 == k then (k, v) else p)) k = some v := by
  induction d with
  | nil => simp at h
  | cons p rest ih =>
    simp only [List.map_cons]
    by_cases hp : (p.1 == k) = true
    · rw [if_pos hp]
      exact lookupD_cons_self
    · rw [if_neg hp]
      have hp' : p.1 ≠ k := fun he => hp (beq_iff_eq.mpr he)
      rw [lookupD_cons_ne hp']
      simp only [List.any_cons, hp, Bool.false_or] at h
      exact ih h

theorem lookupD_of_any_eq_false {d : Dict} {k : String}
    (h : d.any (fun p => p.1 == k) = false) : lookupD d k = none := by
  apply lookupD_eq_none_of_not_mem
  intro hmem
  rcases List.mem_map.mp hmem with ⟨p, hp, hfst⟩
  rw [List.any_eq_false] at h
  exact h p hp (beq_iff_eq.mpr hfst)

theorem lookupD_append (d1 d2 : Dict) (k : String) :
    lookupD (d1 ++ d2) k = (lookupD d1 k).or (lookupD d2 k) := by
  induction d1 with
  | nil => simp [lookupD]
  | cons p rest ih =>
    by_cases hp : p.1 = k
    · subst hp
      rcases p with ⟨k0, v0⟩
      simp [lookupD_cons_self]
    · rw [List.cons_append, lookupD_cons_ne hp, lookupD_cons_ne hp]
      exact ih

theorem lookupD_setKey (d : Dict) (k v k' : String) :
    lookupD (setKey d k v) k' = if k' = k then some v else lookupD d k' := by
  simp only [setKey]
  by_cases hany : d.any (fun p => p.1 == k) = true
  · rw [if_pos hany]
    by_cases h : k' = k
    · subst h
      rw [if_pos rfl]
      exact lookupD_map_replace_self d k' v hany
    · rw [if_neg h]
      exact lookupD_map_replace_ne d k v k' h
  · rw [if_neg hany, lookupD_append]
    by_cases h : k' = k
    · subst h
      rw [if_pos rfl, lookupD_of_any_eq_false (Bool.eq_false_iff.mpr hany)]
      simp [lookupD_cons_self]
    · rw [if_neg h, lookupD_cons_ne (fun he : k = k' => h he.symm)]
      simp [lookupD]

theorem lookupD_dictUpdate (d : Dict) :
    ∀ (n : Dict), (n.map Prod.fst).Nodup → ∀ (k : String),
      lookupD (dictUpdate d n) k
        = match lookupD n k with
          | some v => some v
          | none => lookupD d k := by
  intro n
  induction n generalizing d with
  | nil => intro _ k; simp [dictUpdate, lookupD]
  | cons p rest ih =>
    intro hnd k
    rcases p with ⟨k0, v0⟩
    simp only [List.map_cons, List.nodup_cons] at hnd
    have step : dictUpdate d ((k0, v0) :: rest) = dictUpdate (setKey d k0 v0) rest := rfl
    rw [step, ih (setKey d k0 v0) hnd.2 k]
    by_cases h : k = k0
    · subst h
      have hrest : lookupD rest k = none :=
        lookupD_eq_none_of_not_mem hnd.1
      rw [hrest, lookupD_cons_self, lookupD_setKey, if_pos rfl]
    · rw [lookupD_cons_ne (fun he : k0 = k => h he.symm)]
      cases hr : lookupD rest k with
      | some v => rfl
      | none => rw [lookupD_setKey, if_neg h]

/-! ### Rate-limiter and adapter frame lemmas -/

theorem check_snd_api_keys (now : Int) (st : ApiState) (api : ApiName) :
    (check_rate_limit now st api).2.api_keys = st.api_keys := rfl

theorem check_snd_last_calls (now : Int) (st : ApiState) (api a : ApiName) :
    (check_rate_limit now st api).2.last_calls a
      = if a = api then prune now (st.last_calls api) else st.last_calls a := rfl

theorem record_api_keys (now : Int) (st : ApiState) (api : ApiName) :
    (record_api_call now st api).api_keys = st.api_keys := rfl

theorem record_last_calls (now : Int) (st : ApiState) (api a : ApiName) :
    (record_api_call now st api).last_calls a
      = if a = api then st.last_calls api ++ [now] else st.last_calls a := rfl

theorem check_fst_congr (now : Int) (st st' : ApiState) (api : ApiName)
    (h : st'.last_calls api = st.last_calls api) :
    (check_rate_limit now st' api).1 = (check_rate_limit now st api).1 := by
  simp [check_rate_limit, h]

/-- The first component of an adapter run depends only on the credential
dict, never on the ledger. -/
theorem run_adapter_fst (symbol interval : String) (env : FetchEnv)
    (s1 s2 : ApiState) (h : s1.api_keys = s2.api_keys) (api : ApiName) :
    (run_adapter symbol interval env s1 api).map Prod.fst
      = (run_adapter symbol interval env s2 api).map Prod.fst := by
  cases api <;>
    simp only [run_adapter, get_finnhub_data, get_twelve_data,
      get_alpha_vantage_data, get_yfinance_data, h] <;>
    (repeat' split) <;> simp [Except.map]

/-- An adapter run that returns normally preserves the credential dict and
every other provider's ledger entry. -/
theorem run_adapter_ok_frame (symbol interval : String) (env : FetchEnv)
    (st : ApiState) (api : ApiName) (d : Option MarketData) (st' : ApiState)
    (h : run_adapter symbol interval env st api = .ok (d, st')) :
    st'.api_keys = st.api_keys
    ∧ ∀ a, a ≠ api → st'.last_calls a = st.last_calls a := by
  cases api <;>
    simp only [run_adapter, get_finnhub_data, get_twelve_data,
      get_alpha_vantage_data, get_yfinance_data] at h <;>
    (repeat' split at h) <;>
    simp_all <;>
    (try rcases h with ⟨h1, h2⟩) <;>
    subst_eqs <;>
    refine ⟨rfl, fun a ha => ?_⟩ <;>
    simp [record_api_call, updCalls, ha]

/-- The threaded provider loop computes the first per-provider success, with
every provider classified against the initial state. -/
theorem gmdLoop_eq_firstSome (symbol interval : String) (env : FetchEnv) :
    ∀ (l : List ApiName), l.Nodup → ∀ (st st' : ApiState),
      st'.api_keys = st.api_keys →
      (∀ a ∈ l, st'.last_calls a = st.last_calls a) →
      (gmdLoop symbol interval env l st').1
        = firstSome (l.map (provider_attempt symbol interval env st)) := by
  intro l
  induction l with
  | nil => intro _ st st' _ _; rfl
  | cons api rest ih =>
    intro hnd st st' hkeys hcalls
    rw [List.nodup_cons] at hnd
    have hcall_api : st'.last_calls api = st.last_calls api :=
      hcalls api (List.mem_cons_self _ _)
    have hrest : ∀ a ∈ rest, st'.last_calls a = st.last_calls a :=
      fun a ha => hcalls a (List.mem_cons_of_mem _ ha)
    simp only [gmdLoop, List.map_cons, provider_attempt, hkeys]
    by_cases hskip : api ≠ ApiName.yfinance ∧ (lookupD st.api_keys api.key).isNone
    · rw [if_pos hskip, if_pos hskip]
      rw [ih hnd.2 st st' hkeys hrest]
      rfl
    · rw [if_neg hskip, if_neg hskip]
      have hchk : (check_rate_limit env.now st' api).1
          = (check_rate_limit env.now st api).1 :=
        check_fst_congr env.now st st' api hcall_api
      by_cases hlim : (check_rate_limit env.now st api).1 = true
      · rw [hchk, hlim, if_pos rfl, if_pos rfl]
        have hk2 : (check_rate_limit env.now st' api).2.api_keys
            = (check_rate_limit env.now st api).2.api_keys := by
          rw [check_snd_api_keys, check_snd_api_keys, hkeys]
        have hfst := run_adapter_fst symbol interval env
          (check_rate_limit env.now st' api).2
          (check_rate_limit env.now st api).2 hk2 api
        have hframe_rest : ∀ (st'' : ApiState),
            st''.api_keys = st.api_keys →
            (∀ a, a ≠ api → st''.last_calls a
              = (check_rate_limit env.now st' api).2.last_calls a) →
            ∀ a ∈ rest, st''.last_calls a = st.last_calls a := by
          intro st'' _ hfr a ha
          have hne : a ≠ api := fun he => hnd.1 (he ▸ ha)
          rw [hfr a hne, check_snd_last_calls, if_neg hne]
          exact hrest a ha
        have hchk2_keys : (check_rate_limit env.now st' api).2.api_keys
            = st.api_keys := by rw [check_snd_api_keys, hkeys]
        have hchk2_rest : ∀ a ∈ rest,
            (check_rate_limit env.now st' api).2.last_calls a
              = st.last_calls a := by
          intro a ha
          rw [check_snd_last_calls,
            if_neg (fun he : a = api => hnd.1 (he ▸ ha))]
          exact hrest a ha
        cases hrun' : run_adapter symbol interval env
            (check_rate_limit env.now st' api).2 api with
        | error e =>
          cases hrun : run_adapter symbol interval env
              (check_rate_limit env.now st api).2 api with
          | error e2 =>
            exact ih hnd.2 st (check_rate_limit env.now st' api).2
              hchk2_keys hchk2_rest
          | ok p =>
            rw [hrun', hrun] at hfst
            simp [Except.map] at hfst
        | ok p =>
          rcases p with ⟨d, st''⟩
          cases hrun : run_adapter symbol interval env
              (check_rate_limit env.now st api).2 api with
          | error e2 =>
            rw [hrun', hrun] at hfst
            simp [Except.map] at hfst
          | ok q =>
            rcases q with ⟨d2, st2⟩
            rw [hrun', hrun] at hfst
            simp only [Except.map, Except.ok.injEq] at hfst
            have hd : d = d2 := hfst
            subst hd
            have hframe := run_adapter_ok_frame symbol interval env
              (check_rate_limit env.now st' api).2 api d st'' hrun'
            have hkeys'' : st''.api_keys = st.api_keys := by
              rw [hframe.1, check_snd_api_keys, hkeys]
            have hrec : ∀ a ∈ rest, st''.last_calls a = st.last_calls a :=
              hframe_rest st'' hkeys'' hframe.2
            cases d with
            | none =>
              exact ih hnd.2 st st'' hkeys'' hrec
            | some md =>
              show (if md.data.isEmpty = true then
                      gmdLoop symbol interval env rest st''
                    else (some md, st'')).1
                  = firstSome ((if md.data.isEmpty = true then none
                      else some md) :: List.map
                        (provider_attempt symbol interval env st) rest)
              by_cases hemp : md.data.isEmpty = true
              · rw [if_pos hemp, if_pos hemp]
                exact ih hnd.2 st st'' hkeys'' hrec
              · rw [if_neg hemp, if_neg hemp]
                rfl
      · rw [hchk]
        simp only [Bool.not_eq_true] at hlim
        rw [hlim, if_neg Bool.false_ne_true, if_neg Bool.false_ne_true]
        exact ih hnd.2 st (check_rate_limit env.now st' api).2
          (by rw [check_snd_api_keys, hkeys])
          (fun a ha => by
            rw [check_snd_last_calls,
              if_neg (fun he : a = api => hnd.1 (he ▸ ha))]
            exact hrest a ha)

theorem firstSome_cons_none (xs : List (Option MarketData)) :
    firstSome (none :: xs) = firstSome xs := rfl

theorem firstSome_cons_some (d : MarketData) (xs : List (Option MarketData)) :
    firstSome (some d :: xs) = some d := rfl

theorem firstSome_erase_none {f : ApiName → Option MarketData} :
    ∀ (l : List ApiName) (api : ApiName), f api = none →
      firstSome (l.map f) = firstSome ((l.erase api).map f) := by
  intro l
  induction l with
  | nil => intro api _; rfl
  | cons a rest ih =>
    intro api hnone
    by_cases ha : a = api
    · subst ha
      rw [List.erase_cons_head, List.map_cons, hnone, firstSome_cons_none]
    · rw [List.erase_cons_tail (by simp [ha]), List.map_cons, List.map_cons]
      cases hfa : f a with
      | none => rw [firstSome_cons_none, firstSome_cons_none, ih api hnone]
      | some d => rw [firstSome_cons_some, firstSome_cons_some]

/-- A raising Finnhub request: the adapter re-raises, or skipped without a
credential / for an unknown interval, leaving the state untouched. -/
theorem finnhub_error_result (symbol interval : String) (e : Unit) (now : Int)
    (s : ApiState) :
    get_finnhub_data symbol interval (.error e) now s = .error ()
    ∨ get_finnhub_data symbol interval (.error e) now s = .ok (none, s) := by
  simp only [get_finnhub_data]
  (repeat' split) <;> simp

/-- A raising Twelve Data request: re-raised or skipped, state untouched. -/
theorem twelve_error_result (symbol interval : String) (e : Unit) (now : Int)
    (s : ApiState) :
    get_twelve_data symbol interval (.error e) now s = .error ()
    ∨ get_twelve_data symbol interval (.error e) now s = .ok (none, s) := by
  simp only [get_twelve_data]
  (repeat' split) <;> simp

/-- A raising Alpha Vantage request: re-raised or skipped, state
untouched. -/
theorem alpha_error_result (symbol interval : String) (e : Unit) (now : Int)
    (s : ApiState) :
    get_alpha_vantage_data symbol interval (.error e) now s = .error ()
    ∨ get_alpha_vantage_data symbol interval (.error e) now s
        = .ok (none, s) := by
  simp only [get_alpha_vantage_data]
  (repeat' split) <;> simp

/-- A raising yfinance request always re-raises (there is no credential
skip for yfinance). -/
theorem yfinance_error_result (symbol interval : String) (e : Unit)
    (now : Int) (s : ApiState) :
    get_yfinance_data symbol interval (.error e) now s = .error () := by
  simp only [get_yfinance_data]
  (repeat' split) <;> rfl

/-- An adapter whose network round-trip raises contributes no result. -/
theorem attempt_none_of_payload_errored (symbol interval : String)
    (env : FetchEnv) (st : ApiState) (api : ApiName)
    (herr : payload_errored env api = true) :
    provider_attempt symbol interval env st api = none := by
  cases api with
  | finnhub =>
    rcases he : env.finnhub with e | j
    · simp only [provider_attempt, run_adapter, he]
      rcases finnhub_error_result symbol interval e env.now
          (check_rate_limit env.now st .finnhub).2 with h | h <;>
        rw [h] <;> (repeat' split) <;> simp_all
    · simp [payload_errored, he] at herr
  | twelve_data =>
    rcases he : env.twelve_data with e | j
    · simp only [provider_attempt, run_adapter, he]
      rcases twelve_error_result symbol interval e env.now
          (check_rate_limit env.now st .twelve_data).2 with h | h <;>
        rw [h] <;> (repeat' split) <;> simp_all
    · simp [payload_errored, he] at herr
  | alpha_vantage =>
    rcases he : env.alpha_vantage with e | j
    · simp only [provider_attempt, run_adapter, he]
      rcases alpha_error_result symbol interval e env.now
          (check_rate_limit env.now st .alpha_vantage).2 with h | h <;>
        rw [h] <;> (repeat' split) <;> simp_all
    · simp [payload_errored, he] at herr
  | yfinance =>
    rcases he : env.yfinance with e | j
    · simp only [provider_attempt, run_adapter, he]
      rw [yfinance_error_result symbol interval e env.now
        (check_rate_limit env.now st .yfinance).2]
      (repeat' split) <;> simp_all
    · simp [payload_errored, he] at herr
  | newsapi => exact absurd herr (by simp [payload_errored])

theorem yf_intervals_eq_none {interval : String} (h1 : interval ≠ "1m")
    (h2 : interval ≠ "30m") (h3 : interval ≠ "1D") :
    yf_intervals interval = none := by
  unfold yf_intervals
  split <;> simp_all

theorem finnhub_intervals_eq_none {interval : String} (h1 : interval ≠ "1m")
    (h2 : interval ≠ "30m") (h3 : interval ≠ "1D") :
    finnhub_intervals interval = none := by
  unfold finnhub_intervals
  split <;> simp_all

theorem td_intervals_eq_none {interval : String} (h1 : interval ≠ "1m")
    (h2 : interval ≠ "30m") (h3 : interval ≠ "1D") :
    td_intervals interval = none := by
  unfold td_intervals
  split <;> simp_all

theorem av_intervals_eq_none {interval : String} (h1 : interval ≠ "1m")
    (h2 : interval ≠ "30m") :
    av_intervals interval = none := by
  unfold av_intervals
  split <;> simp_all

/-- Whatever the environment, a successful fetch never carries an empty bar
list: the loop's success test (line 93) requires `len(data['data']) > 0`. -/
theorem gmdLoop_some_nonempty (symbol interval : String) (env : FetchEnv) :
    ∀ (l : List ApiName) (st : ApiState) (d : MarketData) (st' : ApiState),
      gmdLoop symbol interval env l st = (some d, st') → d.data ≠ [] := by
  intro l
  induction l with
  | nil => intro st d st' h; simp [gmdLoop] at h
  | cons api rest ih =>
    intro st d st' h
    simp only [gmdLoop] at h
    split at h
    · exact ih st d st' h
    · split at h
      · split at h
        · exact ih _ d st' h
        · split at h
          · exact ih _ d st' h
          · rename_i hemp
            injection h with h1 h2
            injection h1 with h1
            subst h1
            intro hnil
            exact hemp (by simp [hnil])
        · exact ih _ d st' h
      · exact ih _ d st' h

/-- Looking a key up in a value-filtered dict. -/
theorem lookupD_filter (q : String → Bool) :
    ∀ (keys : Dict), (keys.map Prod.fst).Nodup → ∀ k,
      lookupD (keys.filter (fun p => q p.2)) k
        = (lookupD keys k).bind (fun v => if q v then some v else none) := by
  intro keys
  induction keys with
  | nil => intro _ k; rfl
  | cons p rest ih =>
    intro hnd k
    rcases p with ⟨k0, v0⟩
    rw [List.map_cons, List.nodup_cons] at hnd
    rw [List.filter_cons]
    by_cases hk : k0 = k
    · subst hk
      have hnone : lookupD (rest.filter (fun p => q p.2)) k0 = none := by
        apply lookupD_eq_none_of_not_mem
        intro hmem
        rcases List.mem_map.mp hmem with ⟨pr, hpr, hfst⟩
        exact hnd.1 (List.mem_map.mpr ⟨pr, List.mem_of_mem_filter hpr, hfst⟩)
      by_cases hq : q v0 = true
      · rw [if_pos hq, lookupD_cons_self, lookupD_cons_self]
        simp [hq]
      · rw [if_neg hq, lookupD_cons_self, hnone]
        simp [hq]
    · by_cases hq : q v0 = true
      · rw [if_pos hq, lookupD_cons_ne hk, lookupD_cons_ne hk]
        exact ih hnd.2 k
      · rw [if_neg hq, lookupD_cons_ne hk]
        exact ih hnd.2 k

/-- The finnhub half of `get_news`, evaluated at any state that agrees with
the initial one on the credential dict and on finnhub's ledger entry. -/
theorem get_news_finnhub_half (limit : Nat) (env : NewsEnv)
    (st s1 : ApiState) (hk : s1.api_keys = st.api_keys)
    (hc : s1.last_calls ApiName.finnhub = st.last_calls ApiName.finnhub) :
    (if (lookupD s1.api_keys "finnhub").isSome = true then
      (if (check_rate_limit env.now s1 .finnhub).1 = true then
        get_finnhub_news (limit / 2) env (check_rate_limit env.now s1 .finnhub).2
      else ([], (check_rate_limit env.now s1 .finnhub).2))
     else ([], s1)).1
    = (if (lookupD st.api_keys "finnhub").isSome
          ∧ (check_rate_limit env.now st .finnhub).1 then
        ((env.finnhub_news).getD []).take (limit / 2)
       else []) := by
  have hchk : (check_rate_limit env.now s1 .finnhub).1
      = (check_rate_limit env.now st .finnhub).1 :=
    check_fst_congr env.now st s1 .finnhub hc
  rw [hk]
  by_cases h1 : (lookupD st.api_keys "finnhub").isSome = true
  · rw [if_pos h1]
    by_cases h2 : (check_rate_limit env.now st .finnhub).1 = true
    · rw [hchk, if_pos h2, if_pos ⟨h1, h2⟩]
      simp only [get_finnhub_news]
      cases env.finnhub_news <;> simp
    · rw [hchk, if_neg h2, if_neg (fun hc' => h2 hc'.2)]
  · rw [if_neg h1, if_neg (fun hc' => h1 hc'.1)]

/-- `get_news` is exactly: accumulate the pool, de-duplicate by URL, stable
sort newest-first, truncate. -/
theorem get_news_fst (limit : Nat) (env : NewsEnv) (st : ApiState) :
    (get_news limit env st).1
      = (sortBy newsDescLe
          (dedup_by_url (news_pool limit env st) [])).take limit := by
  simp only [get_news, news_pool]
  have key : ∀ X Y Z W : List Article, X = Y → Z = W →
      (sortBy newsDescLe (dedup_by_url (X ++ Z) [])).take limit
        = (sortBy newsDescLe (dedup_by_url (Y ++ W) [])).take limit := by
    intro X Y Z W h h'
    rw [h, h']
  apply key
  · by_cases h1 : (lookupD st.api_keys "newsapi").isSome = true
    · rw [if_pos h1]
      by_cases h2 : (check_rate_limit env.now st .newsapi).1 = true
      · rw [if_pos h2, if_pos ⟨h1, h2⟩]
        simp only [get_newsapi_news]
        cases h3 : env.newsapi_articles (limit / 2) <;> simp
      · rw [if_neg h2, if_neg (fun hc' => h2 hc'.2)]
    · rw [if_neg h1, if_neg (fun hc' => h1 hc'.1)]
  · apply get_news_finnhub_half limit env st
    · by_cases h1 : (lookupD st.api_keys "newsapi").isSome = true
      · rw [if_pos h1]
        by_cases h2 : (check_rate_limit env.now st .newsapi).1 = true
        · rw [if_pos h2]
          simp only [get_newsapi_news]
          cases h3 : env.newsapi_articles (limit / 2) <;>
            simp [record_api_keys, check_snd_api_keys]
        · rw [if_neg h2]
          exact check_snd_api_keys env.now st .newsapi
      · rw [if_neg h1]
    · by_cases h1 : (lookupD st.api_keys "newsapi").isSome = true
      · rw [if_pos h1]
        by_cases h2 : (check_rate_limit env.now st .newsapi).1 = true
        · rw [if_pos h2]
          simp only [get_newsapi_news]
          cases h3 : env.newsapi_articles (limit / 2) <;>
            simp [record_last_calls, check_snd_last_calls]
        · rw [if_neg h2]
          rw [check_snd_last_calls]
          simp
      · rw [if_neg h1]

theorem firstSome_eq_none {f : ApiName → Option MarketData} :
    ∀ l : List ApiName, (∀ a ∈ l, f a = none) → firstSome (l.map f) = none := by
  intro l
  induction l with
  | nil => intro _; rfl
  | cons a rest ih =>
    intro h
    rw [List.map_cons, h a (List.mem_cons_self _ _), firstSome_cons_none]
    exact ih (fun b hb => h b (List.mem_cons_of_mem _ hb))

/-! ## Claim theorems -/

/-- **C1**: for every symbol and interval, `get_market_data` iterates the
providers in the fixed order finnhub, twelve_data, alpha_vantage, yfinance,
skipping a provider whose required credential is absent or whose rate limit
is exhausted, returns the first attempt whose bar list is non-empty
immediately (the response is exactly the one provider's
`provider_attempt`), and returns the explicit no-data signal `none` when
every provider is skipped or fails. -/
theorem get_market_data_first_success (symbol interval : String)
    (env : FetchEnv) (st : ApiState) :
    (get_market_data symbol interval env st).1
      = firstSome (apis_to_try.map
          (provider_attempt symbol interval env st)) :=
  gmdLoop_eq_firstSome symbol interval env apis_to_try (by decide) st st rfl
    (fun _ _ => rfl)

/-- **C2**: `_check_rate_limit` prunes the provider's ledger to the
timestamps strictly inside the trailing 60 seconds and answers true iff the
pruned count is strictly below the configured per-minute limit; a full
window of recent calls answers false, and a full-length ledger whose oldest
entry has aged 60 seconds or more answers true again. -/
theorem check_rate_limit_window (now : Int) (st : ApiState) (api : ApiName) :
    ((check_rate_limit now st api).2.last_calls api
        = prune now (st.last_calls api))
    ∧ ((check_rate_limit now st api).1 = true
        ↔ (prune now (st.last_calls api)).length < limits api)
    ∧ ((∀ t ∈ st.last_calls api, now - t < 60) →
        limits api ≤ (st.last_calls api).length →
        (check_rate_limit now st api).1 = false)
    ∧ ((st.last_calls api).length = limits api →
        (∃ t ∈ st.last_calls api, 60 ≤ now - t) →
        (check_rate_limit now st api).1 = true) := by
  refine ⟨by simp [check_rate_limit, updCalls],
    by simp [check_rate_limit], ?_, ?_⟩
  · intro hall hlen
    have hfull : prune now (st.last_calls api) = st.last_calls api :=
      List.filter_eq_self.mpr (fun t ht => decide_eq_true (hall t ht))
    rw [show (check_rate_limit now st api).1
        = decide ((prune now (st.last_calls api)).length < limits api)
        from rfl, hfull]
    exact decide_eq_false (not_lt.mpr hlen)
  · intro hlen hex
    rcases hex with ⟨t, ht, hold⟩
    have hlt : (prune now (st.last_calls api)).length
        < (st.last_calls api).length :=
      List.length_filter_lt_length_iff_exists.mpr
        ⟨t, ht, by simp only [decide_eq_true_eq]; omega⟩
    rw [show (check_rate_limit now st api).1
        = decide ((prune now (st.last_calls api)).length < limits api)
        from rfl]
    exact decide_eq_true (by omega)

/-- Witness for C2 at the twelve_data limit of 8: a fully recent window of 8
calls blocks, and the same-size window with its oldest call aged out
allows. -/
theorem check_rate_limit_window_witness :
    (check_rate_limit 100
        ⟨[], fun a => if a = ApiName.twelve_data
            then [50, 55, 56, 57, 58, 59, 60, 61] else []⟩
        .twelve_data).1 = false
    ∧ (check_rate_limit 200
        ⟨[], fun a => if a = ApiName.twelve_data
            then [50, 141, 142, 143, 144, 145, 146, 147] else []⟩
        .twelve_data).1 = true :=
  ⟨(check_rate_limit_window 100 _ _).2.2.1 (by decide) (by decide),
   (check_rate_limit_window 200 _ _).2.2.2 (by decide) (by decide)⟩

/-- **C9**: `get_api_status` does not mutate the state (in particular the
rate-limit ledger), lists every configured provider, and reports per
provider the credential flag, the configured limit, and the remaining calls
in the trailing window — positive exactly when `_check_rate_limit` would
allow a call. -/
theorem get_api_status_read_only (now : Int) (st : ApiState) :
    (get_api_status now st).2 = st
    ∧ (get_api_status now st).1.map Prod.fst = limitsOrder
    ∧ (∀ pr ∈ (get_api_status now st).1,
        pr.2.has_key = (lookupD st.api_keys pr.1.key).isSome
        ∧ pr.2.limit = limits pr.1
        ∧ pr.2.remaining_calls
            = limits pr.1 - (prune now (st.last_calls pr.1)).length
        ∧ (0 < pr.2.remaining_calls
            ↔ (check_rate_limit now st pr.1).1 = true)) := by
  refine ⟨rfl, rfl, ?_⟩
  intro pr hpr
  simp only [get_api_status, List.mem_map] at hpr
  rcases hpr with ⟨api, _, rfl⟩
  refine ⟨rfl, rfl, rfl, ?_⟩
  simp only [check_rate_limit, decide_eq_true_eq]
  omega

/-- Witness for C9 at a concrete credentialed state. -/
theorem get_api_status_read_only_witness :
    ((get_api_status 0
        ⟨[("finnhub", "k")], fun _ => []⟩).2
      = ⟨[("finnhub", "k")], fun _ => []⟩)
    ∧ (({ has_key := true, remaining_calls := 60, limit := 60,
          status := "active" } : ProviderStatus).has_key
        = (lookupD [("finnhub", "k")] ApiName.finnhub.key).isSome) :=
  ⟨(get_api_status_read_only 0 ⟨[("finnhub", "k")], fun _ => []⟩).1,
   ((get_api_status_read_only 0 ⟨[("finnhub", "k")], fun _ => []⟩).2.2
     (ApiName.finnhub,
      { has_key := true, remaining_calls := 60, limit := 60,
        status := "active" }) (by decide)).1⟩

/-- **C5**: when a provider's adapter raises (transport error),
`get_market_data` absorbs it — the erroring provider contributes nothing —
and the fetch proceeds to the remaining providers in order; nothing
propagates to the caller (the orchestrator is a total function whose result
equals the first success among the other providers). -/
theorem adapter_error_absorbed (symbol interval : String) (env : FetchEnv)
    (st : ApiState) (api : ApiName)
    (herr : payload_errored env api = true) :
    provider_attempt symbol interval env st api = none
    ∧ (get_market_data symbol interval env st).1
        = firstSome ((apis_to_try.erase api).map
            (provider_attempt symbol interval env st)) := by
  have hnone := attempt_none_of_payload_errored symbol interval env st api herr
  exact ⟨hnone,
    (gmdLoop_eq_firstSome symbol interval env apis_to_try (by decide) st st
      rfl (fun _ _ => rfl)).trans
    (firstSome_erase_none apis_to_try api hnone)⟩

/-- Witness for C5: finnhub raises while twelve_data has data; the fetch
skips finnhub and the result is the first success of the remaining
providers. -/
theorem adapter_error_absorbed_witness :
    provider_attempt "AAPL" "1D"
        ⟨0, .error (), .ok (some [some ⟨1, 2, 3, 4, 5, 6⟩]), .error (),
         .error ()⟩
        ⟨[("finnhub", "k"), ("twelve_data", "k")], fun _ => []⟩
        .finnhub = none
    ∧ (get_market_data "AAPL" "1D"
        ⟨0, .error (), .ok (some [some ⟨1, 2, 3, 4, 5, 6⟩]), .error (),
         .error ()⟩
        ⟨[("finnhub", "k"), ("twelve_data", "k")], fun _ => []⟩).1
        = firstSome ((apis_to_try.erase .finnhub).map
            (provider_attempt "AAPL" "1D"
              ⟨0, .error (), .ok (some [some ⟨1, 2, 3, 4, 5, 6⟩]),
               .error (), .error ()⟩
              ⟨[("finnhub", "k"), ("twelve_data", "k")], fun _ => []⟩)) :=
  adapter_error_absorbed "AAPL" "1D"
    ⟨0, .error (), .ok (some [some ⟨1, 2, 3, 4, 5, 6⟩]), .error (),
     .error ()⟩
    ⟨[("finnhub", "k"), ("twelve_data", "k")], fun _ => []⟩
    .finnhub (by decide)

/-- **C6**: for an interval outside the closed set {1m, 30m, 1D}, every
adapter fails immediately and serves no substitute resolution: finnhub,
twelve_data and alpha_vantage return the no-data signal with the state
untouched, the yfinance adapter raises before fetching anything (its `'1d'`
substitution immediately hits the `yf_intervals[interval]` KeyError), and
consequently `get_market_data` returns `none`. -/
theorem unknown_interval_fails (symbol interval : String) (env : FetchEnv)
    (st : ApiState) (now : Int) (h1 : interval ≠ "1m")
    (h2 : interval ≠ "30m") (h3 : interval ≠ "1D") :
    get_finnhub_data symbol interval env.finnhub now st = .ok (none, st)
    ∧ get_twelve_data symbol interval env.twelve_data now st = .ok (none, st)
    ∧ get_alpha_vantage_data symbol interval env.alpha_vantage now st
        = .ok (none, st)
    ∧ get_yfinance_data symbol interval env.yfinance now st = .error ()
    ∧ (get_market_data symbol interval env st).1 = none := by
  have hf : ∀ (s : ApiState) (n : Int),
      get_finnhub_data symbol interval env.finnhub n s = .ok (none, s) := by
    intro s n
    simp [get_finnhub_data, finnhub_intervals_eq_none h1 h2 h3]
  have ht : ∀ (s : ApiState) (n : Int),
      get_twelve_data symbol interval env.twelve_data n s
        = .ok (none, s) := by
    intro s n
    simp [get_twelve_data, td_intervals_eq_none h1 h2 h3]
  have ha : ∀ (s : ApiState) (n : Int),
      get_alpha_vantage_data symbol interval env.alpha_vantage n s
        = .ok (none, s) := by
    intro s n
    simp [get_alpha_vantage_data, av_intervals_eq_none h1 h2, h3]
  have hy : ∀ (s : ApiState) (n : Int),
      get_yfinance_data symbol interval env.yfinance n s = .error () := by
    intro s n
    simp only [get_yfinance_data, yf_intervals_eq_none h1 h2 h3,
      Option.isSome_none, Bool.false_eq_true, if_false]
    rfl
  refine ⟨hf st now, ht st now, ha st now, hy st now, ?_⟩
  refine (gmdLoop_eq_firstSome symbol interval env apis_to_try (by decide)
    st st rfl (fun _ _ => rfl)).trans (firstSome_eq_none apis_to_try ?_)
  intro api hmem
  fin_cases hmem
  · simp only [provider_attempt, run_adapter,
      hf (check_rate_limit env.now st ApiName.finnhub).2 env.now]
    (repeat' split) <;> rfl
  · simp only [provider_attempt, run_adapter,
      ht (check_rate_limit env.now st ApiName.twelve_data).2 env.now]
    (repeat' split) <;> rfl
  · simp only [provider_attempt, run_adapter,
      ha (check_rate_limit env.now st ApiName.alpha_vantage).2 env.now]
    (repeat' split) <;> rfl
  · simp only [provider_attempt, run_adapter,
      hy (check_rate_limit env.now st ApiName.yfinance).2 env.now]
    (repeat' split) <;> rfl

/-- Witness for C6 at the unsupported interval `"5m"`, with every provider
holding non-empty data it would happily serve for a supported interval. -/
theorem unknown_interval_fails_witness :
    get_finnhub_data "AAPL" "5m"
        (.ok ⟨"ok", [1], [1], [1], [1], [1], [1]⟩) 0
        ⟨[("finnhub", "k"), ("twelve_data", "k"), ("alpha_vantage", "k")],
         fun _ => []⟩
      = .ok (none,
          ⟨[("finnhub", "k"), ("twelve_data", "k"), ("alpha_vantage", "k")],
           fun _ => []⟩)
    ∧ (get_market_data "AAPL" "5m"
        ⟨0, .ok ⟨"ok", [1], [1], [1], [1], [1], [1]⟩,
         .ok (some [some ⟨1, 1, 1, 1, 1, 1⟩]),
         .ok (some [("2024-01-01", some ⟨1, 1, 1, 1, 1, 1⟩)]),
         .ok [⟨1, 1, 1, 1, 1, some 1⟩]⟩
        ⟨[("finnhub", "k"), ("twelve_data", "k"), ("alpha_vantage", "k")],
         fun _ => []⟩).1 = none :=
  ⟨(unknown_interval_fails "AAPL" "5m"
      ⟨0, .ok ⟨"ok", [1], [1], [1], [1], [1], [1]⟩,
       .ok (some [some ⟨1, 1, 1, 1, 1, 1⟩]),
       .ok (some [("2024-01-01", some ⟨1, 1, 1, 1, 1, 1⟩)]),
       .ok [⟨1, 1, 1, 1, 1, some 1⟩]⟩
      ⟨[("finnhub", "k"), ("twelve_data", "k"), ("alpha_vantage", "k")],
       fun _ => []⟩ 0
      (by decide) (by decide) (by decide)).1,
   (unknown_interval_fails "AAPL" "5m"
      ⟨0, .ok ⟨"ok", [1], [1], [1], [1], [1], [1]⟩,
       .ok (some [some ⟨1, 1, 1, 1, 1, 1⟩]),
       .ok (some [("2024-01-01", some ⟨1, 1, 1, 1, 1, 1⟩)]),
       .ok [⟨1, 1, 1, 1, 1, some 1⟩]⟩
      ⟨[("finnhub", "k"), ("twelve_data", "k"), ("alpha_vantage", "k")],
       fun _ => []⟩ 0
      (by decide) (by decide) (by decide)).2.2.2.2⟩

/-- **C3 counterexample**: a fetch in which twelve_data's request succeeds
with an empty `values` array.  The attempt yields no data (`get_market_data`
returns `none`), yet a timestamp is appended to twelve_data's ledger —
`_record_api_call` (line 283) runs before the emptiness check (line 284) —
refuting "an attempt that yields an empty bar sequence leaves the ledger
unchanged". -/
theorem record_on_empty_cex :
    (get_market_data "AAPL" "1D"
        ⟨1000, .error (), .ok (some []), .error (), .error ()⟩
        ⟨[("twelve_data", "k")], fun _ => []⟩).1 = none
    ∧ (get_market_data "AAPL" "1D"
        ⟨1000, .error (), .ok (some []), .error (), .error ()⟩
        ⟨[("twelve_data", "k")], fun _ => []⟩).2.last_calls .twelve_data
        = [1000]
    ∧ ((⟨[("twelve_data", "k")], fun _ => []⟩ : ApiState)).last_calls
        .twelve_data = [] :=
  ⟨by decide, by decide, rfl⟩

/-- **C3 amended**: no timestamp is recorded on a transport error (the
adapters raise or skip with the state untouched), and the yfinance adapter
records exactly when it returns non-empty data; but twelve_data (like
finnhub and alpha_vantage) records as soon as the response parses, before
the emptiness check, so an attempt yielding an empty bar sequence does
consume rate-limit budget. -/
theorem record_call_discipline (symbol interval : String) (now : Int)
    (st : ApiState) :
    (∀ e, get_finnhub_data symbol interval (.error e) now st = .error ()
        ∨ get_finnhub_data symbol interval (.error e) now st
            = .ok (none, st))
    ∧ (∀ e, get_twelve_data symbol interval (.error e) now st = .error ()
        ∨ get_twelve_data symbol interval (.error e) now st = .ok (none, st))
    ∧ (∀ e, get_alpha_vantage_data symbol interval (.error e) now st
            = .error ()
        ∨ get_alpha_vantage_data symbol interval (.error e) now st
            = .ok (none, st))
    ∧ (∀ e, get_yfinance_data symbol interval (.error e) now st = .error ())
    ∧ (∀ values : List (Option Bar),
        (lookupD st.api_keys "twelve_data").isSome = true →
        (td_intervals interval).isSome = true →
        values.reverse.filterMap id = [] →
        get_twelve_data symbol interval (.ok (some values)) now st
          = .ok (none, record_api_call now st .twelve_data))
    ∧ (∀ payload d st',
        get_yfinance_data symbol interval payload now st = .ok (d, st') →
          (d = none ∧ st' = st)
          ∨ (∃ md, d = some md ∧ md.data ≠ []
              ∧ st' = record_api_call now st .yfinance)) := by
  refine ⟨fun e => finnhub_error_result symbol interval e now st,
    fun e => twelve_error_result symbol interval e now st,
    fun e => alpha_error_result symbol interval e now st,
    fun e => yfinance_error_result symbol interval e now st, ?_, ?_⟩
  · intro values hk hint hemp
    have hnn : (lookupD st.api_keys "twelve_data").isNone = false := by
      cases hx : lookupD st.api_keys "twelve_data" <;> simp_all
    rcases Option.isSome_iff_exists.mp hint with ⟨v, hv⟩
    simp only [get_twelve_data, hnn, Bool.false_eq_true, if_false, hv, hemp]
    simp
  · intro payload d st' h
    simp only [get_yfinance_data] at h
    split at h
    · exact absurd h (by simp)
    · split at h
      · exact absurd h (by simp)
      · rename_i rows
        split at h
        · injection h with h1
          injection h1 with hd hst
          exact Or.inl ⟨hd.symm, hst.symm⟩
        · rename_i hne
          injection h with h1
          injection h1 with hd hst
          refine Or.inr ⟨_, hd.symm, ?_, hst.symm⟩
          have hlen : 0 < rows.length := by
            rw [List.length_pos]
            intro hnil
            rw [hnil] at hne
            exact hne rfl
          intro hnil
          have hlen0 := congrArg List.length hnil
          simp only [List.length_map, List.length_drop,
            List.length_nil] at hlen0
          omega

/-- Witness for C3's amended statement: twelve_data records on an empty
parsed `values` array; yfinance on an empty history leaves the state
untouched. -/
theorem record_call_discipline_witness :
    (get_twelve_data "AAPL" "1D" (.ok (some [])) 7
        ⟨[("twelve_data", "k")], fun _ => []⟩
      = .ok (none, record_api_call 7
          ⟨[("twelve_data", "k")], fun _ => []⟩ .twelve_data))
    ∧ (((none : Option MarketData) = none
          ∧ (⟨[("twelve_data", "k")], fun _ => []⟩ : ApiState)
              = ⟨[("twelve_data", "k")], fun _ => []⟩)
        ∨ (∃ md, (none : Option MarketData) = some md ∧ md.data ≠ []
            ∧ (⟨[("twelve_data", "k")], fun _ => []⟩ : ApiState)
                = record_api_call 7
                    ⟨[("twelve_data", "k")], fun _ => []⟩ .yfinance)) :=
  ⟨(record_call_discipline "AAPL" "1D" 7
      ⟨[("twelve_data", "k")], fun _ => []⟩).2.2.2.2.1
      [] (by decide) (by decide) rfl,
   (record_call_discipline "AAPL" "1D" 7
      ⟨[("twelve_data", "k")], fun _ => []⟩).2.2.2.2.2
      (.ok []) none ⟨[("twelve_data", "k")], fun _ => []⟩ rfl⟩

/-- **C4 counterexample**: the finnhub adapter applies no 100-bar cap — a
well-formed candle response with 101 entries flows through
`get_market_data` as a successful result carrying 101 bars, refuting
"length at most 100 for every provider adapter". -/
theorem bar_cap_cex :
    ((get_market_data "AAPL" "1D"
        ⟨1000, .ok ⟨"ok", List.map Int.ofNat (List.range 101),
          List.replicate 101 0, List.replicate 101 0, List.replicate 101 0,
          List.replicate 101 0, List.replicate 101 0⟩,
         .error (), .error (), .error ()⟩
        ⟨[("finnhub", "k")], fun _ => []⟩).1.elim 0
          (fun d => d.data.length)) = 101
    ∧ ¬ ((101 : Nat) ≤ 100) :=
  ⟨by decide, by decide⟩

/-- **C4 amended**: every successful fetch returns a non-empty bar
sequence, and the 100-bar cap is enforced unconditionally by the yfinance
and alpha_vantage adapters; twelve_data returns exactly the parsed values
reversed (so cap and oldest-to-newest order hold exactly when the payload
is within size and newest-first), yfinance preserves the payload's
chronological order, and finnhub applies no cap (see the
counterexample). -/
theorem bar_sequence_shape (symbol interval : String) :
    (∀ env st d st',
        get_market_data symbol interval env st = (some d, st') →
        d.data ≠ [])
    ∧ (∀ payload now st d st',
        get_yfinance_data symbol interval payload now st
          = .ok (some d, st') → d.data.length ≤ 100)
    ∧ (∀ payload now st d st',
        get_alpha_vantage_data symbol interval payload now st
          = .ok (some d, st') → d.data.length ≤ 100)
    ∧ (∀ values now st d st',
        get_twelve_data symbol interval (.ok (some values)) now st
          = .ok (some d, st') →
        d.data = (values.filterMap id).reverse)
    ∧ (∀ rows now st d st',
        get_yfinance_data symbol interval (.ok rows) now st
          = .ok (some d, st') →
        (rows.map YfRow.timestamp).Pairwise (· ≤ ·) →
        (d.data.map Bar.timestamp).Pairwise (· ≤ ·)) := by
  refine ⟨?_, ?_, ?_, ?_, ?_⟩
  · intro env st d st' h
    exact gmdLoop_some_nonempty symbol interval env apis_to_try st d st' h
  · intro payload now st d st' h
    simp only [get_yfinance_data] at h
    split at h
    · exact absurd h (by simp)
    · split at h
      · exact absurd h (by simp)
      · rename_i rows
        split at h
        · exact absurd h (by simp)
        · injection h with h1
          injection h1 with hd hst
          injection hd with hd
          rw [← hd]
          simp only [List.length_map, List.length_drop]
          omega
  · intro payload now st d st' h
    simp only [get_alpha_vantage_data] at h
    split at h
    · exact absurd h (by simp)
    · split at h
      · exact absurd h (by simp)
      · split at h
        · exact absurd h (by simp)
        · exact absurd h (by simp)
        · rename_i series
          split at h
          · exact absurd h (by simp)
          · injection h with h1
            injection h1 with hd hst
            injection hd with hd
            rw [← hd]
            refine le_trans (List.length_filterMap_le _ _) ?_
            simp only [List.length_drop, length_sortBy, List.length_map]
            omega
  · intro values now st d st' h
    simp only [get_twelve_data] at h
    split at h
    · exact absurd h (by simp)
    · split at h
      · exact absurd h (by simp)
      · split at h
        · exact absurd h (by simp)
        · injection h with h1
          injection h1 with hd hst
          injection hd with hd
          rw [← hd, List.filterMap_reverse]
  · intro rows now st d st' h hsorted
    simp only [get_yfinance_data] at h
    split at h
    · exact absurd h (by simp)
    · split at h
      · exact absurd h (by simp)
      · injection h with h1
        injection h1 with hd hst
        injection hd with hd
        rw [← hd]
        simp only [List.map_map]
        rw [show (Bar.timestamp ∘ fun r : YfRow =>
            ({ timestamp := r.timestamp, open_p := r.open_p,
               high := r.high, low := r.low, close := r.close,
               volume := r.volume.getD 0 } : Bar))
            = fun r : YfRow => r.timestamp from rfl,
          List.map_drop]
        exact hsorted.sublist (List.drop_sublist _ _)

/-- Witness for C4's amended statement: a successful one-bar fetch is
non-empty; a one-row yfinance history respects the cap; twelve_data's
output is its parsed payload reversed. -/
theorem bar_sequence_shape_witness :
    (MarketData.mk "AAPL" "1D" [⟨9, 1, 2, 3, 4, 5⟩]).data ≠ []
    ∧ (MarketData.mk "AAPL" "1D" [⟨9, 1, 2, 3, 4, 5⟩]).data.length ≤ 100
    ∧ (MarketData.mk "AAPL" "1D" [⟨9, 1, 2, 3, 4, 5⟩]).data
        = ([some ⟨9, 1, 2, 3, 4, 5⟩].filterMap id).reverse :=
  ⟨(bar_sequence_shape "AAPL" "1D").1
      ⟨5, .error (), .error (), .error (), .ok [⟨9, 1, 2, 3, 4, some 5⟩]⟩
      ⟨[], fun _ => []⟩
      (MarketData.mk "AAPL" "1D" [⟨9, 1, 2, 3, 4, 5⟩])
      (get_market_data "AAPL" "1D"
        ⟨5, .error (), .error (), .error (), .ok [⟨9, 1, 2, 3, 4, some 5⟩]⟩
        ⟨[], fun _ => []⟩).2
      (Prod.ext (by decide) rfl),
   (bar_sequence_shape "AAPL" "1D").2.1
      (.ok [⟨9, 1, 2, 3, 4, some 5⟩]) 5 ⟨[], fun _ => []⟩
      (MarketData.mk "AAPL" "1D" [⟨9, 1, 2, 3, 4, 5⟩])
      (record_api_call 5 ⟨[], fun _ => []⟩ .yfinance) rfl,
   (bar_sequence_shape "AAPL" "1D").2.2.2.1
      [some ⟨9, 1, 2, 3, 4, 5⟩] 5 ⟨[("twelve_data", "k")], fun _ => []⟩
      (MarketData.mk "AAPL" "1D" [⟨9, 1, 2, 3, 4, 5⟩])
      (record_api_call 5 ⟨[("twelve_data", "k")], fun _ => []⟩
        .twelve_data) rfl⟩

/-- **C7**: `update_api_keys` filters blank (empty or whitespace-only)
values before both the in-memory merge and persistence: non-blank entries
land in `self.api_keys` and in the stored table, while keys whose entries
are all blank — or absent — leave both maps unchanged at that key; in
particular `update_api_keys({'finnhub': ''})` preserves an existing stored
finnhub key. -/
theorem update_api_keys_blank_filter (keys : Dict) (st : ApiState)
    (db : DbState) (hnd : (keys.map Prod.fst).Nodup) :
    (∀ k v, lookupD keys k = some v → keptKey v = true →
        lookupD (update_api_keys keys st db).1.api_keys k = some v
        ∧ lookupD (update_api_keys keys st db).2.stored_keys k = some v)
    ∧ (∀ k, (∀ v, lookupD keys k = some v → keptKey v = false) →
        lookupD (update_api_keys keys st db).1.api_keys k
            = lookupD st.api_keys k
        ∧ lookupD (update_api_keys keys st db).2.stored_keys k
            = lookupD db.stored_keys k) := by
  have hclean_nodup :
      (((keys.filter (fun p => keptKey p.2)).map Prod.fst)).Nodup :=
    List.Nodup.sublist
      (List.Sublist.map Prod.fst (List.filter_sublist keys)) hnd
  have hlf := lookupD_filter keptKey keys hnd
  have hupd1 := lookupD_dictUpdate st.api_keys
    (keys.filter (fun p => keptKey p.2)) hclean_nodup
  have hupd2 := lookupD_dictUpdate db.stored_keys
    (keys.filter (fun p => keptKey p.2)) hclean_nodup
  constructor
  · intro k v hkv hkept
    have hc : lookupD (keys.filter (fun p => keptKey p.2)) k = some v := by
      rw [hlf k, hkv]
      simp [hkept]
    constructor
    · show lookupD (dictUpdate st.api_keys
        (keys.filter (fun p => keptKey p.2))) k = some v
      rw [hupd1 k, hc]
    · show lookupD (dictUpdate db.stored_keys
        (keys.filter (fun p => keptKey p.2))) k = some v
      rw [hupd2 k, hc]
  · intro k hblank
    have hc : lookupD (keys.filter (fun p => keptKey p.2)) k = none := by
      rw [hlf k]
      cases hx : lookupD keys k with
      | none => rfl
      | some v => simp [hblank v hx]
    constructor
    · show lookupD (dictUpdate st.api_keys
        (keys.filter (fun p => keptKey p.2))) k = lookupD st.api_keys k
      rw [hupd1 k, hc]
    · show lookupD (dictUpdate db.stored_keys
        (keys.filter (fun p => keptKey p.2))) k
          = lookupD db.stored_keys k
      rw [hupd2 k, hc]

/-- Witness for C7: `update_api_keys({'finnhub': ''})` leaves the existing
in-memory and stored finnhub key `"old"` untouched. -/
theorem update_api_keys_blank_filter_witness :
    lookupD (update_api_keys [("finnhub", "")]
        ⟨[("finnhub", "old")], fun _ => []⟩
        ⟨[("finnhub", "old")]⟩).1.api_keys "finnhub"
      = some "old"
    ∧ lookupD (update_api_keys [("finnhub", "")]
        ⟨[("finnhub", "old")], fun _ => []⟩
        ⟨[("finnhub", "old")]⟩).2.stored_keys "finnhub"
      = some "old" := by
  have h := (update_api_keys_blank_filter [("finnhub", "")]
      ⟨[("finnhub", "old")], fun _ => []⟩ ⟨[("finnhub", "old")]⟩
      (by decide)).2 "finnhub"
      (fun v hv => by
        rw [show lookupD [("finnhub", "")] "finnhub" = some "" from rfl]
          at hv
        injection hv with hv
        rw [← hv]
        decide)
  exact ⟨h.1.trans (by decide), h.2.trans (by decide)⟩

/-- **C8**: `get_news` accumulates the articles of all available news
providers into one pool, removes duplicates by URL keeping the first
occurrence (each returned article is its URL's first occurrence in the
pool), sorts by publish timestamp descending, and truncates to at most
`limit` articles. -/
theorem get_news_merge_dedup_sort (limit : Nat) (env : NewsEnv)
    (st : ApiState) :
    (get_news limit env st).1
      = (sortBy newsDescLe
          (dedup_by_url (news_pool limit env st) [])).take limit
    ∧ (get_news limit env st).1.length ≤ limit
    ∧ ((get_news limit env st).1.map Article.url).Nodup
    ∧ (get_news limit env st).1.Pairwise (fun a b => newsDescLe a b = true)
    ∧ ∀ a ∈ (get_news limit env st).1,
        (news_pool limit env st).find? (fun x => x.url == a.url)
          = some a := by
  have heq := get_news_fst limit env st
  refine ⟨heq, ?_, ?_, ?_, ?_⟩
  · rw [heq]
    exact List.length_take_le _ _
  · rw [heq]
    refine List.Nodup.sublist
      (List.Sublist.map Article.url (List.take_sublist _ _)) ?_
    exact ((perm_sortBy newsDescLe _).map Article.url).nodup_iff.mpr
      (dedup_urls_nodup _ _)
  · rw [heq]
    exact List.Pairwise.sublist (List.take_sublist _ _)
      (pairwise_sortBy newsDescLe_trans newsDescLe_total _)
  · intro a ha
    rw [heq] at ha
    have h2 : a ∈ dedup_by_url (news_pool limit env st) [] :=
      mem_sortBy.mp ((List.take_sublist _ _).subset ha)
    exact dedup_find_first h2

/-- Witness for C8: with overlapping URLs from the two providers, a
returned article is the first pool occurrence of its URL. -/
theorem get_news_merge_dedup_sort_witness :
    (news_pool 4
        ⟨0, fun n => some (List.take n
            [⟨"t", "d", "u1", "2024-01-01", "s", "n"⟩,
             ⟨"t", "d", "u2", "2024-03-01", "s", "n"⟩]),
         some [⟨"t", "d", "u1", "2024-01-01", "s", "n"⟩,
               ⟨"t", "d", "u3", "2024-02-01", "s", "n"⟩]⟩
        ⟨[("newsapi", "k"), ("finnhub", "k")], fun _ => []⟩).find?
        (fun x => x.url
          == (⟨"t", "d", "u2", "2024-03-01", "s", "n"⟩ : Article).url)
      = some ⟨"t", "d", "u2", "2024-03-01", "s", "n"⟩ :=
  (get_news_merge_dedup_sort 4
    ⟨0, fun n => some (List.take n
        [⟨"t", "d", "u1", "2024-01-01", "s", "n"⟩,
         ⟨"t", "d", "u2", "2024-03-01", "s", "n"⟩]),
     some [⟨"t", "d", "u1", "2024-01-01", "s", "n"⟩,
           ⟨"t", "d", "u3", "2024-02-01", "s", "n"⟩]⟩
    ⟨[("newsapi", "k"), ("finnhub", "k")], fun _ => []⟩).2.2.2.2
    ⟨"t", "d", "u2", "2024-03-01", "s", "n"⟩ (by decide)

/-- **C10**: `get_news` asks each provider for `limit // 2` articles, so
with `limit = 1` each provider is asked for 0: provided NewsAPI honours the
requested page size (finnhub's `data[:limit]` truncation is
unconditional), the result is the empty list even when news exists. -/
theorem news_limit_one_empty (env : NewsEnv) (st : ApiState)
    (h : ∀ n l, env.newsapi_articles n = some l → l.length ≤ n) :
    (get_news 1 env st).1 = []
    ∧ ∀ (limit : Nat) (st' : ApiState),
        ((get_finnhub_news (limit / 2) env st').1).length ≤ limit / 2 := by
  constructor
  · rw [get_news_fst]
    have hpool : news_pool 1 env st = [] := by
      simp only [news_pool]
      have hn : (env.newsapi_articles (1 / 2)).getD [] = [] := by
        cases hx : env.newsapi_articles (1 / 2) with
        | none => rfl
        | some l =>
          have hl := h _ _ hx
          simp only [Option.getD_some]
          exact List.length_eq_zero.mp (Nat.le_zero.mp hl)
      rw [show ((1 : Nat) / 2) = 0 from rfl] at hn ⊢
      split <;> split <;> simp [hn]
    rw [hpool]
    rfl
  · intro limit st'
    simp only [get_finnhub_news]
    cases env.finnhub_news with
    | none => simp
    | some data => exact List.length_take_le _ _

/-- Witness for C10: both providers hold an article, yet `get_news` with
`limit = 1` returns nothing. -/
theorem news_limit_one_empty_witness :
    (get_news 1
        ⟨0, fun n => some (List.take n
            [⟨"t", "d", "u9", "2024-01-01", "s", "n"⟩]),
         some [⟨"t", "d", "u9", "2024-01-01", "s", "n"⟩]⟩
        ⟨[("newsapi", "k"), ("finnhub", "k")], fun _ => []⟩).1 = [] :=
  (news_limit_one_empty
    ⟨0, fun n => some (List.take n
        [⟨"t", "d", "u9", "2024-01-01", "s", "n"⟩]),
     some [⟨"t", "d", "u9", "2024-01-01", "s", "n"⟩]⟩
    ⟨[("newsapi", "k"), ("finnhub", "k")], fun _ => []⟩
    (fun n l hl => by
      injection hl with hl
      rw [← hl]
      exact List.length_take_le _ _)).1

end MBF
